import Mathlib

/-!
Verification development for the video production pipeline
(`src/main.py` orchestrator and `src/editor.py` engine).

Shallow embedding conventions:
* Python `dict`s (insertion ordered, unique keys) are association lists
  `List (String × _)`; `dict` lookup is `List.lookup`, `del` is `List.filter`
  on the key, `list.remove` is `List.erase`.
* Durations (seconds) are rationals `ℚ` (the floats of the source, modelled
  exactly; none of the verified claims depends on float rounding).
* External effects (TTS synthesis, file existence, PIL text measurement,
  numpy random draws) are explicit function parameters of the embedding.
-/

/-- Section ordering from `main.py` line 48 (`priority_order`). -/
def priorityOrder : List String :=
  ["hook", "intro", "love", "career", "money", "health", "remedy",
   "lucky_color", "lucky_number", "lucky_dates", "lucky_months"]

/-- The pre-filter condition of `main.py` line 53:
`section in script and script[section] and len(str(script[section])) >= 5`.
For string values Python truthiness is non-emptiness. -/
def keepSection (script : List (String × String)) (s : String) : Bool :=
  match script.lookup s with
  | some v => (v != "") && decide (5 ≤ v.length)
  | none => false

/-- The key sequence of the script dict, in insertion (encounter) order. -/
def scriptKeys (script : List (String × String)) : List String :=
  script.map Prod.fst

/-- `main.py` lines 51-54: iterate over `priority_order` followed by the
unknown script keys in encounter order, keeping those passing the filter. -/
def activeSections (script : List (String × String)) : List String :=
  (priorityOrder ++
    (scriptKeys script).filter (fun k => !priorityOrder.contains k)).filter
    (keepSection script)

/-- Duration ceiling of the smart trim, `main.py` line 190
(`TARGET_DURATION = 58.0`). -/
def TARGET_DURATION : ℚ := 58

/-- Fixed drop order of the smart trim, `main.py` line 202. -/
def dropCandidates : List String :=
  ["intro", "health", "lucky_number", "lucky_color", "money"]

/-- The sections the trim comment (`main.py` line 200) promises never to
drop: `NEVER DROP: Hook, Love, Career, Remedy`. -/
def protectedSections : List String := ["hook", "love", "career", "remedy"]

/-- State of the trimming phase: the measured audio map `section_audios`
(section key ↦ duration), the ordered `active_sections` list, and the
running `total_duration`. -/
structure TrimState where
  audios : List (String × ℚ)
  active : List String
  total : ℚ
deriving DecidableEq

/-- Sum of the recorded durations of an audio map. -/
def sumDur (l : List (String × ℚ)) : ℚ := (l.map Prod.snd).sum

/-- One candidate step of the trim loop body, `main.py` lines 208-215:
if the candidate has a recorded audio, delete it from the map, remove it
from `active_sections`, and subtract its duration from the running total;
otherwise do nothing. -/
def dropCand (st : TrimState) (c : String) : TrimState :=
  match st.audios.lookup c with
  | some d =>
      ⟨st.audios.filter (fun p => p.1 != c), st.active.erase c, st.total - d⟩
  | none => st

/-- The trim loop, `main.py` lines 204-215: walk the drop candidates in
order; the `break` at the top of the body fires as soon as the running
total is within the target. -/
def trimLoop : List String → TrimState → TrimState
  | [], st => st
  | c :: cs, st =>
      if st.total ≤ TARGET_DURATION then st
      else trimLoop cs (dropCand st c)

/-- Phase 2 of `produce_video_from_script`, `main.py` lines 189-217: the
loop runs only when the total exceeds the target. -/
def smartTrim (st : TrimState) : TrimState :=
  if TARGET_DURATION < st.total then trimLoop dropCandidates st else st

/-- Concrete pre-trim state built from the spec's Scenario B durations
(intro 5, hook 6, love 9, career 8, money 7, health 6, remedy 9,
lucky_color 4, lucky_number 3; total 57). -/
def scenarioB : TrimState :=
  ⟨[("intro", 5), ("hook", 6), ("love", 9), ("career", 8), ("money", 7),
    ("health", 6), ("remedy", 9), ("lucky_color", 4), ("lucky_number", 3)],
   ["hook", "intro", "love", "career", "money", "health", "remedy",
    "lucky_color", "lucky_number"],
   57⟩

/-- A concrete over-budget state: total 63 exceeds the 58s target, so the
trim must drop `intro` (then stop at 58). -/
def overBudget : TrimState :=
  ⟨[("intro", 5), ("hook", 20), ("love", 20), ("remedy", 18)],
   ["hook", "intro", "love", "remedy"], 63⟩

/-- Python's default whitespace class for `str.strip` and `str.split`
(the ASCII part; the scripts at hand contain no exotic unicode spaces). -/
def pyIsSpace (c : Char) : Bool :=
  c == ' ' || c == '\t' || c == '\n' || c == '\r' || c == '\x0b' || c == '\x0c'

/-- Python `str.strip()`: drop whitespace from both ends. -/
def pyStrip (s : String) : String :=
  ⟨((s.data.dropWhile pyIsSpace).reverse.dropWhile pyIsSpace).reverse⟩

/-- Python `str.startswith(pre)`. -/
def pyStartsWith (s pre : String) : Bool := pre.data.isPrefixOf s.data

/-- Python `c in s` for a single-character needle. -/
def pyContainsChar (s : String) (c : Char) : Bool := s.data.contains c

/-- Python `str.endswith(suf)`. -/
def pyEndsWith (s suf : String) : Bool := suf.data.isSuffixOf s.data

/-- The raw-object guard of `main.py` lines 158-159: the stripped speech
text looks like a stringified dict (starts with a left brace and contains
a right brace) or a stringified list. -/
def rawObjectLike (s : String) : Bool :=
  let t := pyStrip s
  (pyStartsWith t "\x7b" && pyContainsChar t '\x7d')
    || (pyStartsWith t "[" && pyContainsChar t ']')

/-- Phase 1 of `produce_video_from_script` (`main.py` lines 86-185),
abstracted over the two external effects: `speech sec txt` is the
localized speech text of a section (the localization block, lines 90-155,
is a pure string computation the verified claims quantify over), and
`synth sec` is the measured audio duration when the narrator produced an
artifact at the section's expected path, `none` on synthesis failure
(either `narrator.speak` producing no file, line 185, or an audio read
error, line 183). A surviving section records `clip.duration + 0.3`
(the buffer of line 172). -/
def phase1 (speech : String → String → String) (synth : String → Option ℚ)
    (script : List (String × String)) (active : List String) :
    List (String × ℚ) :=
  active.filterMap fun s =>
    match script.lookup s with
    | none => none
    | some txt =>
        if rawObjectLike (speech s txt) then none
        else
          match synth s with
          | some d => some (s, d + 3 / 10)
          | none => none

/-- The state entering the trim phase: the measured audio map, the active
section list, and `total_duration` accumulated as the sum of the recorded
durations (`main.py` line 181). -/
def initialState (speech : String → String → String)
    (synth : String → Option ℚ) (script : List (String × String)) :
    TrimState :=
  ⟨phase1 speech synth script (activeSections script),
   activeSections script,
   sumDur (phase1 speech synth script (activeSections script))⟩

/-- The state after the smart trim of phase 2. -/
def trimmedState (speech : String → String → String)
    (synth : String → Option ℚ) (script : List (String × String)) :
    TrimState :=
  smartTrim (initialState speech synth script)

/-- Phase 3 (`main.py` lines 220-255): one scene per active section that
still has a recorded audio, carrying the scene's duration. Scene
rendering itself (`EditorEngine.create_scene`) is total in the source. -/
def finalScenes (speech : String → String → String)
    (synth : String → Option ℚ) (script : List (String × String)) :
    List (String × ℚ) :=
  (trimmedState speech synth script).active.filterMap fun s =>
    ((trimmedState speech synth script).audios.lookup s).map fun d => (s, d)

/-- `EditorEngine._select_music_by_mood` (`editor.py` lines 376-388), with
the music folder state as input (`none`: the folder does not exist;
`some files`: its directory listing). The function body computes
`all_music` and then falls off the end, implicitly returning `None`; both
`_ensure_music_assets` call sites raise `NameError`, because that
method's trailing selection block (`editor.py` lines 413-434) references
`all_music` and `mood`, names that are not defined in its scope. -/
def selectMusicByMood (mood : String) (folder : Option (List String)) :
    Except String (Option String) :=
  match folder with
  | none => .error "NameError"
  | some files =>
      let allMusic := files.filter fun f =>
        pyEndsWith f ".mp3" || pyEndsWith f ".wav" || pyEndsWith f ".m4a"
      if allMusic.isEmpty then .error "NameError"
      else .ok none

/-- `EditorEngine.assemble_final` (`editor.py` lines 329-374): with no
scenes it logs an error and returns without writing anything (`.ok none`
means no output artifact); otherwise it concatenates the scenes, so the
written file's duration is exactly the sum of the scene durations (the
background music, when some is selected, is looped or cut to that same
length and only mixed in, lines 344-350; a missing selection only skips
the mixing). `musicSel` is the outcome of the `_select_music_by_mood`
call of line 339, whose exception would propagate. The function contains
no duration ceiling, truncation, or tail fade. -/
def assembleFinal (scenes : List (String × ℚ))
    (musicSel : Except String (Option String)) : Except String (Option ℚ) :=
  if scenes.isEmpty then .ok none
  else
    match musicSel with
    | .error e => .error e
    | .ok _ => .ok (some (sumDur scenes))

/-- `produce_video_from_script` end-to-end (`main.py` lines 17-268):
raises `No scenes created.` (line 259) when phase 3 yields nothing,
otherwise hands the scenes to the assembler. The `.ok` result carries the
duration of the written output artifact. -/
def produce (speech : String → String → String) (synth : String → Option ℚ)
    (musicSel : Except String (Option String))
    (script : List (String × String)) : Except String (Option ℚ) :=
  if (finalScenes speech synth script).isEmpty then .error "No scenes created."
  else assembleFinal (finalScenes speech synth script) musicSel

/-- Identity localization, a concrete instance for witnesses. -/
def speechId : String → String → String := fun _ t => t

/-- A narrator whose synthesis always fails (spec Scenario C). -/
def synthFail : String → Option ℚ := fun _ => none

/-- A narrator that only synthesizes the `hook` section (2 seconds). -/
def synthHookOnly : String → Option ℚ :=
  fun s => if s == "hook" then some 2 else none

/-- A two-section script used by the pipeline witnesses. -/
def scriptC : List (String × String) :=
  [("hook", "hello world"), ("intro", "hello there")]

/-- A script whose single section is a stringified dict. -/
def scriptRaw : List (String × String) := [("hook", "\x7ba: 1\x7d")]

/-- Two scenes totalling 65 seconds, beyond the claimed 59s hard cap. -/
def cexScenes : List (String × ℚ) := [("hook", 35), ("love", 30)]

/-- Rashi gradient color table of `editor.py` lines 31-56: category key
to (top color, bottom color) in RGB. -/
def RASHI_GRADIENTS :
    List (String × ((Nat × Nat × Nat) × (Nat × Nat × Nat))) :=
  [("mesh", ((180, 40, 40), (60, 10, 10))),
   ("aries", ((180, 40, 40), (60, 10, 10))),
   ("vrushabh", ((40, 120, 60), (15, 50, 25))),
   ("taurus", ((40, 120, 60), (15, 50, 25))),
   ("mithun", ((200, 180, 50), (80, 60, 20))),
   ("gemini", ((200, 180, 50), (80, 60, 20))),
   ("kark", ((60, 80, 140), (20, 30, 60))),
   ("cancer", ((60, 80, 140), (20, 30, 60))),
   ("singh", ((200, 100, 30), (80, 40, 10))),
   ("leo", ((200, 100, 30), (80, 40, 10))),
   ("kanya", ((100, 140, 80), (40, 60, 30))),
   ("virgo", ((100, 140, 80), (40, 60, 30))),
   ("tula", ((140, 100, 160), (50, 35, 60))),
   ("libra", ((140, 100, 160), (50, 35, 60))),
   ("vrushchik", ((100, 30, 40), (40, 10, 15))),
   ("scorpio", ((100, 30, 40), (40, 10, 15))),
   ("dhanu", ((160, 80, 40), (60, 30, 15))),
   ("sagittarius", ((160, 80, 40), (60, 30, 15))),
   ("makar", ((60, 60, 60), (25, 25, 25))),
   ("capricorn", ((60, 60, 60), (25, 25, 25))),
   ("kumbh", ((40, 100, 160), (15, 40, 60))),
   ("aquarius", ((40, 100, 160), (15, 40, 60))),
   ("meen", ((80, 120, 140), (30, 50, 60))),
   ("pisces", ((80, 120, 140), (30, 50, 60)))]

/-- Python `str.lower()` (ASCII case fold, all the table needs). -/
def pyLower (s : String) : String := ⟨s.data.map Char.toLower⟩

/-- Helper of Python `str.split()`: accumulate the current word
(reversed) while scanning. -/
def pyWordsAux : List Char → List Char → List String
  | [], acc => if acc.isEmpty then [] else [⟨acc.reverse⟩]
  | c :: cs, acc =>
      if pyIsSpace c then
        if acc.isEmpty then pyWordsAux cs []
        else ⟨acc.reverse⟩ :: pyWordsAux cs []
      else pyWordsAux cs (c :: acc)

/-- Python `str.split()` with no argument: split on whitespace runs,
dropping empty pieces. -/
def pyWords (s : String) : List String := pyWordsAux s.data []

/-- `EditorEngine._get_rashi_key` (`editor.py` lines 92-95):
`rashi_name.lower().split()[0].split("(")[0].strip()`. -/
def getRashiKey (rashiName : String) : String :=
  pyStrip ⟨((pyWords (pyLower rashiName)).headD "").data.takeWhile
    (fun c => c != '(')⟩

/-- Enlarged canvas of `_create_gradient_image` (`editor.py` lines
123-125): `int(1080 * 1.2)` by `int(1920 * 1.2)`. -/
def largeW : Nat := 1296

/-- Enlarged canvas height, `int(1920 * 1.2)`. -/
def largeH : Nat := 2304

/-- One channel of the vertical gradient of `editor.py` lines 131-136:
`int(top * (1 - y/h) + bottom * (y/h))`, computed exactly over the
integers (the float expression floored). -/
def lerpChannel (top bottom y : Nat) : Nat :=
  (top * (largeH - y) + bottom * y) / largeH

/-- Select one RGB channel of a color triple. -/
def channelOf (col : Nat × Nat × Nat) (c : Fin 3) : Nat :=
  match c.val with
  | 0 => col.1
  | 1 => col.2.1
  | _ => col.2.2

/-- `_create_gradient_image` (`editor.py` lines 116-146) as a pixel
function: the vertical gradient plus the per-pixel random noise draw
(`np.random.randint(0, 20, ...)`, line 139); numpy adds the two uint8
arrays with wrap-around before the (then vacuous) clip of line 141. The
`noise` argument stands for the random draw of one invocation; unknown
keys default to `((30,30,60),(10,10,20))` (line 120). -/
def gradientPixel (rashiName : String)
    (noise : Nat → Nat → Fin 3 → Nat) (x y : Nat) (c : Fin 3) : Nat :=
  let colors := (RASHI_GRADIENTS.lookup (getRashiKey rashiName)).getD
    ((30, 30, 60), (10, 10, 20))
  (lerpChannel (channelOf colors.1 c) (channelOf colors.2 c) y
    + noise x y c) % 256

/-- Path the gradient image is saved to (`editor.py` line 144): keyed by
the rashi key only, and overwritten by every invocation. -/
def gradientPath (rashiName : String) : String :=
  "assets/temp/gradient_large_" ++ getRashiKey rashiName ++ ".png"

/-- The background step of `create_scene` (`editor.py` line 192): every
scene invocation recomputes the gradient image, with a fresh noise draw,
and saves it (path, pixel data). -/
def createSceneGradient (rashiName : String)
    (noise : Nat → Nat → Fin 3 → Nat) :
    String × (Nat → Nat → Fin 3 → Nat) :=
  (gradientPath rashiName, gradientPixel rashiName noise)

/-- An all-zeros noise draw (each value inside `randint(0, 20)`'s
range). -/
def noiseZero : Nat → Nat → Fin 3 → Nat := fun _ _ _ => 0

/-- An all-sevens noise draw (also inside the range). -/
def noiseSeven : Nat → Nat → Fin 3 → Nat := fun _ _ _ => 7

/-- Join a line's words with single spaces (`' '.join(...)`,
`editor.py` line 305). -/
def joinWords (ws : List String) : String := " ".intercalate ws

/-- The static-caption wrap threshold, `img_w - 80` pixels with
`img_w = self.width - 100 = 980` (`editor.py` lines 291 and 307). -/
def staticMaxWidth : Nat := 900

/-- The word-wrap loop of `_create_static_text` (`editor.py` lines
300-314), abstracted over the PIL text-width measure (`draw.textbbox`
width, an external font metric). Lines are kept as word lists; the
rendered text of a line is `joinWords` of it. -/
def wrapWords (measure : String → Nat) :
    List String → List String → List (List String)
  | [], current => if current.isEmpty then [] else [current]
  | w :: ws, current =>
      if measure (joinWords (current ++ [w])) < staticMaxWidth then
        wrapWords measure ws (current ++ [w])
      else if current.isEmpty then wrapWords measure ws [w]
      else current :: wrapWords measure ws [w]

/-- A static caption clip: the drawn lines and the display duration. -/
structure StaticClip where
  lines : List (List String)
  duration : ℚ
deriving DecidableEq

/-- `_create_static_text` (`editor.py` lines 289-327): wrap the text's
words, draw only the first five lines (`lines[:5]`, line 318), and show
the image for the whole scene duration (`set_duration(duration)`,
line 325). -/
def createStaticText (measure : String → Nat) (text : String) (dur : ℚ) :
    StaticClip :=
  ⟨(wrapWords measure (pyWords text) []).take 5, dur⟩

/-- A caption layer of `create_scene`: karaoke word clips or the static
fallback block. -/
inductive CaptionLayer where
  | karaokeWords : List (String × ℚ × ℚ) → CaptionLayer
  | staticBlock : StaticClip → CaptionLayer
deriving DecidableEq

/-- The caption branch of `create_scene` (`editor.py` lines 222-229):
Python truthiness sends both `None` and an empty subtitle list to the
static fallback. The karaoke branch keeps each word with its unaltered
start/duration offsets, dropping whitespace-only words (`editor.py`
lines 238-256). -/
def sceneCaption (measure : String → Nat) (subs : List (String × ℚ × ℚ))
    (text : String) (dur : ℚ) : CaptionLayer :=
  if subs.isEmpty then .staticBlock (createStaticText measure text dur)
  else .karaokeWords (subs.filter fun t => !(pyStrip t.1).data.isEmpty)

/-- A width measure making every word 300 pixels wide: a line of `k`
words measures `300 k`, so two words fit under the 900px threshold. -/
def measure300 (s : String) : Nat := 300 * (pyWords s).length

/-- Twelve distinct one-letter words: wraps to six 2-word lines under
`measure300`. -/
def twelveWords : String := "a b c d e f g h i j k l"

theorem lookup_some_mem_keys {β : Type} {l : List (String × β)} {c : String}
    {d : β} (h : l.lookup c = some d) : c ∈ l.map Prod.fst := by
  induction l with
  | nil => simp [List.lookup] at h
  | cons p t ih =>
    rw [List.lookup] at h
    cases hc : c == p.1 with
    | true =>
      simp only [List.map_cons, List.mem_cons]
      exact Or.inl (eq_of_beq hc)
    | false =>
      rw [hc] at h
      simp only [List.map_cons, List.mem_cons]
      exact Or.inr (ih h)

/-- C8. The pre-filter keeps exactly the present, non-empty, length-≥-5
sections; known keys come first in the fixed priority order, unknown keys
are appended in encounter order. -/
theorem active_sections_spec (script : List (String × String)) (s : String) :
    activeSections script
      = priorityOrder.filter (keepSection script)
        ++ ((scriptKeys script).filter
              (fun k => !priorityOrder.contains k)).filter (keepSection script)
    ∧ (s ∈ activeSections script ↔
        ∃ v, script.lookup s = some v ∧ v ≠ "" ∧ 5 ≤ v.length) := by
  constructor
  · simp [activeSections, List.filter_append]
  · constructor
    · intro hs
      rw [activeSections, List.mem_filter] at hs
      obtain ⟨_, hkeep⟩ := hs
      rw [keepSection] at hkeep
      cases hv : script.lookup s with
      | none => rw [hv] at hkeep; simp at hkeep
      | some v =>
        rw [hv] at hkeep
        simp only [Bool.and_eq_true, bne_iff_ne, ne_eq, decide_eq_true_eq] at hkeep
        exact ⟨v, rfl, hkeep.1, hkeep.2⟩
    · rintro ⟨v, hv, hne, hlen⟩
      rw [activeSections, List.mem_filter]
      refine ⟨?_, ?_⟩
      · rw [List.mem_append]
        by_cases hp : s ∈ priorityOrder
        · exact Or.inl hp
        · refine Or.inr ?_
          rw [List.mem_filter]
          refine ⟨lookup_some_mem_keys hv, ?_⟩
          simpa using hp
      · rw [keepSection, hv]
        simp only [Bool.and_eq_true, bne_iff_ne, ne_eq, decide_eq_true_eq]
        exact ⟨hne, hlen⟩

theorem lookup_mem {l : List (String × ℚ)} {c : String} {d : ℚ}
    (h : l.lookup c = some d) : (c, d) ∈ l := by
  induction l with
  | nil => simp [List.lookup] at h
  | cons p t ih =>
    rw [List.lookup] at h
    cases hc : c == p.1 with
    | true =>
      rw [hc] at h
      have hk : c = p.1 := eq_of_beq hc
      have hd : p.2 = d := by simpa using h
      simp only [List.mem_cons]
      exact Or.inl (by rw [hk, ← hd])
    | false =>
      rw [hc] at h
      exact List.mem_cons_of_mem _ (ih h)

theorem lookup_filter_ne {l : List (String × ℚ)} {a c : String} (h : a ≠ c) :
    (l.filter (fun p => p.1 != c)).lookup a = l.lookup a := by
  induction l with
  | nil => rfl
  | cons p t ih =>
    obtain ⟨k, v⟩ := p
    by_cases hk : k = c
    · subst hk
      have hne : ¬ ((fun p => p.1 != k) (k, v) = true) := by simp
      rw [@List.filter_cons_of_neg _ (fun p => p.1 != k) (k, v) t hne, ih,
        List.lookup_cons]
      have hak : (a == k) = false := beq_eq_false_iff_ne.mpr h
      rw [hak]
    · have hpos : ((fun p => p.1 != c) (k, v) = true) := by
        simpa using hk
      rw [@List.filter_cons_of_pos _ (fun p => p.1 != c) (k, v) t hpos,
        List.lookup_cons, List.lookup_cons]
      cases hak : a == k with
      | true => rfl
      | false => exact ih

theorem lookup_filter_self {l : List (String × ℚ)} {c : String} :
    (l.filter (fun p => p.1 != c)).lookup c = none := by
  induction l with
  | nil => rfl
  | cons p t ih =>
    obtain ⟨k, v⟩ := p
    by_cases hk : k = c
    · subst hk
      have hne : ¬ ((fun p => p.1 != k) (k, v) = true) := by simp
      rw [@List.filter_cons_of_neg _ (fun p => p.1 != k) (k, v) t hne]
      exact ih
    · have hpos : ((fun p => p.1 != c) (k, v) = true) := by
        simpa using hk
      rw [@List.filter_cons_of_pos _ (fun p => p.1 != c) (k, v) t hpos,
        List.lookup_cons]
      have hck : (c == k) = false := beq_eq_false_iff_ne.mpr (fun hh => hk hh.symm)
      rw [hck]
      exact ih

theorem dropCand_eq_some {st : TrimState} {c : String} {d : ℚ}
    (h : st.audios.lookup c = some d) :
    dropCand st c
      = ⟨st.audios.filter (fun p => p.1 != c), st.active.erase c,
         st.total - d⟩ := by
  rw [dropCand, h]

theorem dropCand_eq_none {st : TrimState} {c : String}
    (h : st.audios.lookup c = none) : dropCand st c = st := by
  rw [dropCand, h]

theorem dropCand_lookup_ne {st : TrimState} {a c : String} (h : a ≠ c) :
    ((dropCand st c).audios).lookup a = st.audios.lookup a := by
  rw [dropCand]
  cases st.audios.lookup c with
  | none => rfl
  | some d => exact lookup_filter_ne h

theorem dropCand_lookup_self {st : TrimState} {c : String} :
    ((dropCand st c).audios).lookup c = none ∨ dropCand st c = st := by
  rw [dropCand]
  cases h : st.audios.lookup c with
  | none => exact Or.inr rfl
  | some d => exact Or.inl lookup_filter_self

theorem dropCand_lookup_none {st : TrimState} {a c : String}
    (h : st.audios.lookup a = none) :
    ((dropCand st c).audios).lookup a = none := by
  by_cases hac : a = c
  · subst hac
    rcases @dropCand_lookup_self st a with h1 | h1
    · exact h1
    · rw [h1]; exact h
  · rw [dropCand_lookup_ne hac]; exact h

theorem dropCand_self_removed {st : TrimState} {c : String}
    (h : (st.audios.lookup c).isSome) :
    ((dropCand st c).audios).lookup c = none := by
  rcases @dropCand_lookup_self st c with h1 | h1
  · exact h1
  · rw [dropCand] at h1
    cases hl : st.audios.lookup c with
    | none => rw [hl] at h; simp at h
    | some d =>
      rw [hl] at h1
      exfalso
      have := congrArg TrimState.audios h1
      simp only at this
      have h2 : (st.audios.filter (fun p => p.1 != c)).lookup c = none :=
        lookup_filter_self
      rw [this, hl] at h2
      simp at h2

theorem dropCand_mem_active_ne {st : TrimState} {a c : String} (h : a ≠ c) :
    (a ∈ (dropCand st c).active ↔ a ∈ st.active) := by
  rw [dropCand]
  cases st.audios.lookup c with
  | none => rfl
  | some d => exact List.mem_erase_of_ne h

theorem dropCand_nonneg {st : TrimState} {c : String}
    (h : ∀ p ∈ st.audios, 0 ≤ p.2) :
    ∀ p ∈ (dropCand st c).audios, 0 ≤ p.2 := by
  intro p hp
  cases hl : st.audios.lookup c with
  | none => rw [dropCand_eq_none hl] at hp; exact h p hp
  | some d =>
    rw [dropCand_eq_some hl] at hp
    exact h p (List.mem_of_mem_filter hp)

theorem dropCand_total_le {st : TrimState} {c : String}
    (h : ∀ p ∈ st.audios, 0 ≤ p.2) :
    (dropCand st c).total ≤ st.total := by
  rw [dropCand]
  cases hl : st.audios.lookup c with
  | none => exact le_refl _
  | some d =>
    have hd : 0 ≤ d := h (c, d) (lookup_mem hl)
    simp only
    linarith

theorem trimLoop_total_le {cands : List String} {st : TrimState}
    (h : ∀ p ∈ st.audios, 0 ≤ p.2) :
    (trimLoop cands st).total ≤ st.total := by
  induction cands generalizing st with
  | nil => exact le_refl _
  | cons c cs ih =>
    rw [trimLoop]
    by_cases hb : st.total ≤ TARGET_DURATION
    · rw [if_pos hb]
    · rw [if_neg hb]
      exact le_trans (ih (dropCand_nonneg h)) (dropCand_total_le h)

theorem trimLoop_lookup_not_mem {cands : List String} {st : TrimState}
    {c : String} (h : c ∉ cands) :
    ((trimLoop cands st).audios).lookup c = st.audios.lookup c := by
  induction cands generalizing st with
  | nil => rfl
  | cons a cs ih =>
    rw [trimLoop]
    by_cases hb : st.total ≤ TARGET_DURATION
    · rw [if_pos hb]
    · rw [if_neg hb]
      have hca : c ≠ a := fun hh => h (hh ▸ List.mem_cons_self a cs)
      rw [ih (fun hh => h (List.mem_cons_of_mem a hh))]
      exact dropCand_lookup_ne hca

theorem trimLoop_mem_active_not_mem {cands : List String} {st : TrimState}
    {c : String} (h : c ∉ cands) :
    (c ∈ (trimLoop cands st).active ↔ c ∈ st.active) := by
  induction cands generalizing st with
  | nil => rfl
  | cons a cs ih =>
    rw [trimLoop]
    by_cases hb : st.total ≤ TARGET_DURATION
    · rw [if_pos hb]
    · rw [if_neg hb]
      have hca : c ≠ a := fun hh => h (hh ▸ List.mem_cons_self a cs)
      rw [ih (fun hh => h (List.mem_cons_of_mem a hh))]
      exact dropCand_mem_active_ne hca

theorem trimLoop_lookup_none {cands : List String} {st : TrimState}
    {c : String} (h : st.audios.lookup c = none) :
    ((trimLoop cands st).audios).lookup c = none := by
  induction cands generalizing st with
  | nil => exact h
  | cons a cs ih =>
    rw [trimLoop]
    by_cases hb : st.total ≤ TARGET_DURATION
    · rw [if_pos hb]; exact h
    · rw [if_neg hb]
      exact ih (dropCand_lookup_none h)

theorem trimLoop_exhaust {cands : List String} {st : TrimState}
    (h : TARGET_DURATION < (trimLoop cands st).total) :
    ∀ c ∈ cands, ((trimLoop cands st).audios).lookup c = none := by
  induction cands generalizing st with
  | nil => intro c hc; simp at hc
  | cons a cs ih =>
    intro c hc
    rw [trimLoop] at h ⊢
    by_cases hb : st.total ≤ TARGET_DURATION
    · rw [if_pos hb] at h
      exact absurd h (not_lt.mpr hb)
    · rw [if_neg hb] at h ⊢
      rcases List.mem_cons.mp hc with hca | hcs
      · subst hca
        refine trimLoop_lookup_none ?_
        by_cases hs : (st.audios.lookup c).isSome
        · exact dropCand_self_removed hs
        · exact dropCand_lookup_none (Option.not_isSome_iff_eq_none.mp hs)
      · exact ih h c hcs

theorem trimLoop_removed_earlier :
    ∀ (l₁ : List String) (c₁ : String) (rest : List String) (st : TrimState)
      (c₂ : String), c₁ ∉ l₁ → c₂ ∉ l₁ →
      (st.audios.lookup c₁).isSome → (st.audios.lookup c₂).isSome →
      ((trimLoop (l₁ ++ c₁ :: rest) st).audios).lookup c₂ = none →
      ((trimLoop (l₁ ++ c₁ :: rest) st).audios).lookup c₁ = none := by
  intro l₁
  induction l₁ with
  | nil =>
    intro c₁ rest st c₂ _ _ h1 h2 hrem
    rw [List.nil_append, trimLoop] at hrem ⊢
    by_cases hb : st.total ≤ TARGET_DURATION
    · rw [if_pos hb] at hrem
      rw [hrem] at h2
      simp at h2
    · rw [if_neg hb]
      exact trimLoop_lookup_none (dropCand_self_removed h1)
  | cons a l₁' ih =>
    intro c₁ rest st c₂ hn1 hn2 h1 h2 hrem
    have hc1a : c₁ ≠ a := fun hh => hn1 (hh ▸ List.mem_cons_self a l₁')
    have hc2a : c₂ ≠ a := fun hh => hn2 (hh ▸ List.mem_cons_self a l₁')
    rw [List.cons_append, trimLoop] at hrem ⊢
    by_cases hb : st.total ≤ TARGET_DURATION
    · rw [if_pos hb] at hrem
      rw [hrem] at h2
      simp at h2
    · rw [if_neg hb] at hrem ⊢
      refine ih c₁ rest (dropCand st a) c₂
        (fun hh => hn1 (List.mem_cons_of_mem a hh))
        (fun hh => hn2 (List.mem_cons_of_mem a hh)) ?_ ?_ hrem
      · rw [dropCand_lookup_ne hc1a]; exact h1
      · rw [dropCand_lookup_ne hc2a]; exact h2

theorem filter_eq_self_of_key_not_mem {l : List (String × ℚ)} {c : String}
    (h : c ∉ l.map Prod.fst) : l.filter (fun p => p.1 != c) = l := by
  induction l with
  | nil => rfl
  | cons p t ih =>
    simp only [List.map_cons, List.mem_cons] at h
    push_neg at h
    have hpos : ((fun p => p.1 != c) p = true) := by
      simp only [bne_iff_ne, ne_eq]
      exact fun hh => h.1 hh.symm
    rw [@List.filter_cons_of_pos _ (fun p => p.1 != c) p t hpos, ih h.2]

theorem sumDur_filter_key {l : List (String × ℚ)} {c : String} {d : ℚ}
    (hnd : (l.map Prod.fst).Nodup) (h : l.lookup c = some d) :
    sumDur (l.filter (fun p => p.1 != c)) = sumDur l - d := by
  induction l with
  | nil => simp [List.lookup] at h
  | cons p t ih =>
    obtain ⟨k, v⟩ := p
    rw [List.lookup_cons] at h
    simp only [List.map_cons, List.nodup_cons] at hnd
    cases hc : c == k with
    | true =>
      rw [hc] at h
      have hk : c = k := eq_of_beq hc
      have hd : v = d := by simpa using h
      have hne : ¬ ((fun p => p.1 != c) (k, v) = true) := by
        simp [hk]
      rw [@List.filter_cons_of_neg _ (fun p => p.1 != c) (k, v) t hne]
      rw [filter_eq_self_of_key_not_mem (hk ▸ hnd.1)]
      simp only [sumDur, List.map_cons, List.sum_cons]
      rw [hd]; ring
    | false =>
      rw [hc] at h
      have hck : c ≠ k := by simpa using hc
      have hpos : ((fun p => p.1 != c) (k, v) = true) := by
        simp only [bne_iff_ne, ne_eq]
        exact fun hh => hck hh.symm
      rw [@List.filter_cons_of_pos _ (fun p => p.1 != c) (k, v) t hpos]
      simp only [sumDur, List.map_cons, List.sum_cons]
      have := ih hnd.2 h
      simp only [sumDur] at this
      rw [this]; ring

theorem nodup_keys_filter {l : List (String × ℚ)} {c : String}
    (hnd : (l.map Prod.fst).Nodup) :
    ((l.filter (fun p => p.1 != c)).map Prod.fst).Nodup :=
  List.Nodup.sublist ((List.filter_sublist l).map Prod.fst) hnd

theorem trimLoop_sum {cands : List String} {st : TrimState}
    (hnd : (st.audios.map Prod.fst).Nodup) (ht : st.total = sumDur st.audios) :
    (trimLoop cands st).total = sumDur ((trimLoop cands st).audios) := by
  induction cands generalizing st with
  | nil => exact ht
  | cons c cs ih =>
    rw [trimLoop]
    by_cases hb : st.total ≤ TARGET_DURATION
    · rw [if_pos hb]; exact ht
    · rw [if_neg hb]
      cases hl : st.audios.lookup c with
      | none =>
        rw [dropCand_eq_none hl]
        exact ih hnd ht
      | some d =>
        refine ih ?_ ?_
        · rw [dropCand_eq_some hl]
          exact nodup_keys_filter hnd
        · rw [dropCand_eq_some hl]
          simp only
          rw [sumDur_filter_key hnd hl, ht]

/-- C2. The post-timing trim: the final total never exceeds the initial
one (durations being nonnegative); a removal subtracts exactly the removed
section's recorded duration; an absent candidate is skipped unchanged; the
loop stops only once the total is within the 58s ceiling or every
candidate is gone; a later candidate is only ever removed after every
earlier present candidate has been removed (the fixed drop order
`[intro, health, lucky_number, lucky_color, money]`); and the running
total stays the exact sum of the surviving sections' durations. -/
theorem smart_trim_spec (st : TrimState)
    (hnn : ∀ p ∈ st.audios, 0 ≤ p.2) :
    (smartTrim st).total ≤ st.total
    ∧ (st.total ≤ TARGET_DURATION → smartTrim st = st)
    ∧ (smartTrim st ≠ st → TARGET_DURATION < st.total)
    ∧ (∀ c d, st.audios.lookup c = some d →
        (dropCand st c).total = st.total - d)
    ∧ (∀ c, st.audios.lookup c = none → dropCand st c = st)
    ∧ ((smartTrim st).total ≤ TARGET_DURATION
        ∨ ∀ c ∈ dropCandidates, ((smartTrim st).audios).lookup c = none)
    ∧ (∀ l₁ c₁ l₂ c₂ l₃, dropCandidates = l₁ ++ c₁ :: (l₂ ++ c₂ :: l₃) →
        (st.audios.lookup c₁).isSome → (st.audios.lookup c₂).isSome →
        ((smartTrim st).audios).lookup c₂ = none →
        ((smartTrim st).audios).lookup c₁ = none)
    ∧ ((st.audios.map Prod.fst).Nodup → st.total = sumDur st.audios →
        (smartTrim st).total = sumDur ((smartTrim st).audios)) := by
  refine ⟨?_, ?_, ?_, ?_, ?_, ?_, ?_, ?_⟩
  · rw [smartTrim]
    split_ifs with h
    · exact trimLoop_total_le hnn
    · exact le_refl _
  · intro hle
    rw [smartTrim, if_neg (not_lt.mpr hle)]
  · intro hne
    by_cases h : TARGET_DURATION < st.total
    · exact h
    · rw [smartTrim, if_neg h] at hne
      exact absurd rfl hne
  · intro c d h
    rw [dropCand_eq_some h]
  · intro c h
    exact dropCand_eq_none h
  · rw [smartTrim]
    split_ifs with h
    · by_cases h2 : (trimLoop dropCandidates st).total ≤ TARGET_DURATION
      · exact Or.inl h2
      · exact Or.inr (trimLoop_exhaust (not_le.mp h2))
    · exact Or.inl (not_lt.mp h)
  · intro l₁ c₁ l₂ c₂ l₃ heq h1 h2 hrem
    by_cases hlt : TARGET_DURATION < st.total
    · rw [smartTrim, if_pos hlt] at hrem ⊢
      rw [heq] at hrem ⊢
      have hnd : (l₁ ++ c₁ :: (l₂ ++ c₂ :: l₃)).Nodup := by
        rw [← heq]; decide
      rw [List.nodup_append] at hnd
      have hn1 : c₁ ∉ l₁ :=
        fun hmem => hnd.2.2 hmem (List.mem_cons_self _ _)
      have hn2 : c₂ ∉ l₁ :=
        fun hmem => hnd.2.2 hmem
          (List.mem_cons_of_mem _
            (List.mem_append_right _ (List.mem_cons_self _ _)))
      exact trimLoop_removed_earlier l₁ c₁ (l₂ ++ c₂ :: l₃) st c₂
        hn1 hn2 h1 h2 hrem
    · rw [smartTrim, if_neg hlt] at hrem
      rw [hrem] at h2
      simp at h2
  · intro hnd ht
    rw [smartTrim]
    split_ifs with h
    · exact trimLoop_sum hnd ht
    · exact ht

theorem smart_trim_spec_witness :
    (∀ p ∈ overBudget.audios, 0 ≤ p.2)
    ∧ (smartTrim overBudget).total ≤ overBudget.total :=
  ⟨by decide, (smart_trim_spec overBudget (by decide)).1⟩

/-- C3. A protected section (`hook`, `love`, `career`, `remedy`) is never
removed by the trim: its recorded audio and its place in the active list
are untouched, for every duration assignment. -/
theorem protected_sections_survive_trim (c : String)
    (hc : c ∈ protectedSections) (st : TrimState) :
    ((smartTrim st).audios).lookup c = st.audios.lookup c
    ∧ (c ∈ (smartTrim st).active ↔ c ∈ st.active) := by
  have hnot : c ∉ dropCandidates := by
    fin_cases hc <;> decide
  constructor
  · rw [smartTrim]
    split_ifs with h
    · exact trimLoop_lookup_not_mem hnot
    · rfl
  · rw [smartTrim]
    split_ifs with h
    · exact trimLoop_mem_active_not_mem hnot
    · rfl

theorem protected_sections_survive_trim_witness :
    "hook" ∈ protectedSections
    ∧ ((smartTrim overBudget).audios).lookup "hook"
        = overBudget.audios.lookup "hook" :=
  ⟨by decide,
   (protected_sections_survive_trim "hook" (by decide) overBudget).1⟩

theorem phase1_key_mem {speech : String → String → String}
    {synth : String → Option ℚ} {script : List (String × String)}
    {active : List String} {s : String} :
    s ∈ (phase1 speech synth script active).map Prod.fst ↔
      s ∈ active ∧ ∃ txt, script.lookup s = some txt
        ∧ rawObjectLike (speech s txt) = false ∧ (synth s).isSome := by
  constructor
  · intro hs
    rw [List.mem_map] at hs
    obtain ⟨p, hp, hps⟩ := hs
    rw [phase1, List.mem_filterMap] at hp
    obtain ⟨a, ha, hfa⟩ := hp
    cases hl : script.lookup a with
    | none => simp [hl] at hfa
    | some txt =>
      by_cases hg : rawObjectLike (speech a txt)
      · simp [hl, hg] at hfa
      · cases hsy : synth a with
        | none => simp [hl, hg, hsy] at hfa
        | some d =>
          simp only [hl, hg, hsy, Bool.false_eq_true, if_false,
            Option.some.injEq] at hfa
          have hkey : a = s := by rw [← hps, ← hfa]
          subst hkey
          refine ⟨ha, txt, hl, ?_, ?_⟩
          · simpa using hg
          · rw [hsy]; rfl
  · rintro ⟨ha, txt, hl, hg, hsy⟩
    rw [List.mem_map]
    cases hd : synth s with
    | none => rw [hd] at hsy; simp at hsy
    | some d =>
      refine ⟨(s, d + 3 / 10), ?_, rfl⟩
      rw [phase1, List.mem_filterMap]
      refine ⟨s, ha, ?_⟩
      simp [hl, hg, hd]

theorem trimLoop_lookup_cases {cands : List String} {st : TrimState}
    {c : String} :
    ((trimLoop cands st).audios).lookup c = st.audios.lookup c
    ∨ ((trimLoop cands st).audios).lookup c = none := by
  induction cands generalizing st with
  | nil => exact Or.inl rfl
  | cons a cs ih =>
    rw [trimLoop]
    by_cases hb : st.total ≤ TARGET_DURATION
    · rw [if_pos hb]; exact Or.inl rfl
    · rw [if_neg hb]
      rcases @ih (dropCand st a) with h | h
      · rw [h]
        by_cases hca : c = a
        · subst hca
          cases hl : st.audios.lookup c with
          | none => rw [dropCand_eq_none hl, hl]; exact Or.inl rfl
          | some d =>
            rw [dropCand_eq_some hl]
            exact Or.inr lookup_filter_self
        · rw [dropCand_lookup_ne hca]; exact Or.inl rfl
      · exact Or.inr h

theorem smartTrim_lookup_cases {st : TrimState} {c : String} :
    ((smartTrim st).audios).lookup c = st.audios.lookup c
    ∨ ((smartTrim st).audios).lookup c = none := by
  rw [smartTrim]
  split_ifs with h
  · exact trimLoop_lookup_cases
  · exact Or.inl rfl

theorem finalScenes_key_isSome {speech : String → String → String}
    {synth : String → Option ℚ} {script : List (String × String)}
    {s : String} (h : s ∈ (finalScenes speech synth script).map Prod.fst) :
    ((trimmedState speech synth script).audios.lookup s).isSome := by
  rw [List.mem_map] at h
  obtain ⟨p, hp, hps⟩ := h
  rw [finalScenes, List.mem_filterMap] at hp
  obtain ⟨a, _, hfa⟩ := hp
  cases hl : ((trimmedState speech synth script).audios).lookup a with
  | none => simp [hl] at hfa
  | some d =>
    simp only [hl, Option.map_some', Option.some.injEq] at hfa
    have hkey : a = s := by rw [← hps, ← hfa]
    subst hkey
    rw [hl]; rfl

theorem finalScenes_key_mem_phase1 {speech : String → String → String}
    {synth : String → Option ℚ} {script : List (String × String)}
    {s : String} (h : s ∈ (finalScenes speech synth script).map Prod.fst) :
    s ∈ (phase1 speech synth script (activeSections script)).map Prod.fst := by
  have hsome := finalScenes_key_isSome h
  rcases @smartTrim_lookup_cases (initialState speech synth script) s
      with hc | hc
  · rw [trimmedState, hc] at hsome
    cases hl : (initialState speech synth script).audios.lookup s with
    | none => rw [hl] at hsome; simp at hsome
    | some d => exact lookup_some_mem_keys hl
  · rw [trimmedState, hc] at hsome
    simp at hsome

theorem assembleFinal_ok_of_ne_nil {scenes : List (String × ℚ)}
    {m : Option String} (h : scenes ≠ []) :
    assembleFinal scenes (Except.ok m) = .ok (some (sumDur scenes)) := by
  rw [assembleFinal, if_neg (show ¬ (scenes.isEmpty = true) by simpa using h)]

/-- C1 counterexample: the assembler enforces no 59-second hard maximum.
Two scenes of 35s and 30s are assembled into a 65-second output with no
truncation and no fade, so the claimed bound fails. -/
theorem assemble_no_duration_cap_cex :
    ¬ (∀ (scenes : List (String × ℚ)) (m : Except String (Option String))
        (d : ℚ), assembleFinal scenes m = .ok (some d) → d ≤ 59) := by
  intro h
  have h65 : sumDur cexScenes ≤ 59 := h cexScenes (.ok none) _ rfl
  norm_num [sumDur, cexScenes] at h65

/-- C1 amended: for every non-empty scene list the assembled output's
duration equals the sum of the scene durations; `assemble_final` applies
no absolute-maximum truncation and no tail fade-out, so the output
exceeds 59 seconds exactly when the concatenated runtime does. -/
theorem assemble_duration_is_scene_sum (scenes : List (String × ℚ))
    (m : Option String) (h : scenes ≠ []) :
    assembleFinal scenes (.ok m) = .ok (some (sumDur scenes)) :=
  assembleFinal_ok_of_ne_nil h

theorem assemble_duration_is_scene_sum_witness :
    cexScenes ≠ []
    ∧ assembleFinal cexScenes (.ok none) = .ok (some (sumDur cexScenes)) :=
  ⟨by decide, assemble_duration_is_scene_sum cexScenes none (by decide)⟩

/-- C4. With zero surviving scenes the run raises the hard failure
`No scenes created.` before any assembly, and the assembler itself, handed
an empty scene list, returns without writing any output artifact. -/
theorem no_scenes_is_hard_failure (speech : String → String → String)
    (synth : String → Option ℚ) (musicSel : Except String (Option String))
    (script : List (String × String))
    (h : finalScenes speech synth script = []) :
    produce speech synth musicSel script = .error "No scenes created."
    ∧ assembleFinal (finalScenes speech synth script) musicSel = .ok none
    ∧ ∀ d : ℚ, assembleFinal (finalScenes speech synth script) musicSel
        ≠ .ok (some d) := by
  refine ⟨?_, ?_, ?_⟩
  · rw [produce, h]
    rfl
  · rw [h]
    rfl
  · rw [h]
    intro d hcon
    have h2 : (Except.ok (none : Option ℚ) : Except String (Option ℚ))
        = .ok (some d) := hcon
    simp at h2

theorem no_scenes_is_hard_failure_witness :
    finalScenes speechId synthFail scriptC = []
    ∧ produce speechId synthFail (.ok none) scriptC
        = .error "No scenes created." :=
  ⟨by decide,
   (no_scenes_is_hard_failure speechId synthFail (.ok none) scriptC
      (by decide)).1⟩

/-- C5 (code-bug evidence): with an existing music folder holding an
exact-match track for the mood, `_select_music_by_mood` still selects no
track — its body ends after computing `all_music`, implicitly returning
`None`, because the whole selection logic is mis-indented into
`_ensure_music_assets`. The second conjunct shows the mood argument is
never consulted at all. -/
theorem select_music_selects_nothing :
    selectMusicByMood "peaceful"
        (some ["peaceful_ambient.mp3", "energetic_upbeat.mp3"]) = .ok none
    ∧ ∀ (mood1 mood2 : String) (folder : Option (List String)),
        selectMusicByMood mood1 folder = selectMusicByMood mood2 folder :=
  ⟨rfl, fun _ _ _ => rfl⟩

/-- C9. A section whose synthesis fails is absent from the measured audio
map (hence from timing and trimming) and from the final scenes, and the
run still succeeds whenever any scenes survive: `produce` returns the
assembled output of the remaining sections. -/
theorem synth_failure_drops_only_that_section
    (speech : String → String → String) (synth : String → Option ℚ)
    (script : List (String × String)) (s0 : String)
    (h : synth s0 = none) :
    s0 ∉ (phase1 speech synth script (activeSections script)).map Prod.fst
    ∧ s0 ∉ (finalScenes speech synth script).map Prod.fst
    ∧ (∀ m : Option String, finalScenes speech synth script ≠ [] →
        produce speech synth (.ok m) script
          = .ok (some (sumDur (finalScenes speech synth script)))) := by
  have hnp : s0 ∉ (phase1 speech synth script
      (activeSections script)).map Prod.fst := by
    intro hmem
    rcases phase1_key_mem.mp hmem with ⟨_, txt, _, _, hsy⟩
    rw [h] at hsy
    simp at hsy
  refine ⟨hnp, ?_, ?_⟩
  · intro hmem
    exact hnp (finalScenes_key_mem_phase1 hmem)
  · intro m hne
    rw [produce, if_neg (show ¬ ((finalScenes speech synth script).isEmpty
        = true) by simpa using hne)]
    exact assembleFinal_ok_of_ne_nil hne

theorem synth_failure_drops_only_that_section_witness :
    synthHookOnly "intro" = none
    ∧ "intro" ∉ (phase1 speechId synthHookOnly scriptC
        (activeSections scriptC)).map Prod.fst :=
  ⟨by decide,
   (synth_failure_drops_only_that_section speechId synthHookOnly scriptC
      "intro" (by decide)).1⟩

/-- C10. A section whose localized speech text, once stripped, looks like
a stringified dict or list is skipped before synthesis: it contributes no
audio entry, no duration, and no scene, whatever the narrator would have
returned for it. -/
theorem raw_object_guard_skips (speech : String → String → String)
    (synth : String → Option ℚ) (script : List (String × String))
    (s txt : String) (hl : script.lookup s = some txt)
    (hg : rawObjectLike (speech s txt) = true) :
    s ∉ (phase1 speech synth script (activeSections script)).map Prod.fst
    ∧ s ∉ (finalScenes speech synth script).map Prod.fst := by
  have hnp : s ∉ (phase1 speech synth script
      (activeSections script)).map Prod.fst := by
    intro hmem
    rcases phase1_key_mem.mp hmem with ⟨_, txt2, hl2, hg2, _⟩
    rw [hl] at hl2
    have htxt : txt = txt2 := Option.some.inj hl2
    rw [← htxt, hg] at hg2
    simp at hg2
  exact ⟨hnp, fun hmem => hnp (finalScenes_key_mem_phase1 hmem)⟩

theorem raw_object_guard_skips_witness :
    scriptRaw.lookup "hook" = some "\x7ba: 1\x7d"
    ∧ rawObjectLike (speechId "hook" "\x7ba: 1\x7d") = true
    ∧ "hook" ∉ (phase1 speechId (fun _ => some 2) scriptRaw
        (activeSections scriptRaw)).map Prod.fst :=
  ⟨by decide, by decide,
   (raw_object_guard_skips speechId (fun _ => some 2) scriptRaw "hook"
      "\x7ba: 1\x7d" (by decide) (by decide)).1⟩

theorem wrapWords_flatten (measure : String → Nat) :
    ∀ (ws current : List String),
      (wrapWords measure ws current).flatten = current ++ ws := by
  intro ws
  induction ws with
  | nil =>
    intro current
    rw [wrapWords]
    by_cases hc : current.isEmpty
    · rw [if_pos hc]
      simp [List.isEmpty_iff.mp hc]
    · rw [if_neg hc]
      simp
  | cons w ws ih =>
    intro current
    rw [wrapWords]
    by_cases h1 : measure (joinWords (current ++ [w])) < staticMaxWidth
    · rw [if_pos h1, ih]
      simp
    · rw [if_neg h1]
      by_cases hc : current.isEmpty
      · rw [if_pos hc, ih]
        simp [List.isEmpty_iff.mp hc]
      · rw [if_neg hc]
        simp [ih]

/-- C6 counterexample: composing the background twice for the same
category key need not yield identical artifacts. The backdrop is
recomputed on every `create_scene` call and fresh `randint(0, 20)` noise
is added each time, so two invocations whose draws differ (both legal)
disagree: at key `Mesh (Aries)`, pixel (0,0) channel 0 is 180 under one
draw and 187 under another. -/
theorem gradient_same_key_not_identical_cex :
    noiseZero 0 0 0 < 20 ∧ noiseSeven 0 0 0 < 20
    ∧ gradientPixel "Mesh (Aries)" noiseZero 0 0 0 = 180
    ∧ gradientPixel "Mesh (Aries)" noiseSeven 0 0 0 = 187
    ∧ createSceneGradient "Mesh (Aries)" noiseZero
        ≠ createSceneGradient "Mesh (Aries)" noiseSeven := by
  refine ⟨by decide, by decide, by decide, by decide, ?_⟩
  intro hcon
  have h2 := congrArg (fun p => p.2 0 0 0) hcon
  simp only [createSceneGradient] at h2
  rw [show gradientPixel "Mesh (Aries)" noiseZero 0 0 0 = 180 by decide,
    show gradientPixel "Mesh (Aries)" noiseSeven 0 0 0 = 187 by decide] at h2
  exact absurd h2 (by decide)

/-- C6 amended: the gradient backdrop is recomputed on every scene
composition and saved to a single path keyed only by the category key;
the computed artifact is a deterministic function of the category key and
the drawn noise, so two invocations with the same key and equal draws
produce the same path and the same pixel data — identity across draws is
what fails (no caching is performed; see the counterexample). -/
theorem gradient_deterministic_in_key_and_noise (name1 name2 : String)
    (n1 n2 : Nat → Nat → Fin 3 → Nat)
    (hk : getRashiKey name1 = getRashiKey name2)
    (hn : ∀ x y c, n1 x y c = n2 x y c) :
    createSceneGradient name1 n1 = createSceneGradient name2 n2 := by
  unfold createSceneGradient
  rw [gradientPath, gradientPath, hk]
  congr 1
  funext x y c
  rw [gradientPixel, gradientPixel, hk, hn]

theorem gradient_deterministic_in_key_and_noise_witness :
    getRashiKey "Mesh (Aries)" = getRashiKey "MESH"
    ∧ createSceneGradient "Mesh (Aries)" noiseZero
        = createSceneGradient "MESH" noiseZero :=
  ⟨by decide,
   gradient_deterministic_in_key_and_noise "Mesh (Aries)" "MESH" noiseZero
     noiseZero (by decide) (fun _ _ _ => rfl)⟩

/-- C7 counterexample: the static caption does not always show the full
display text. Under a measure where two words fit one line, twelve words
wrap into six lines but only `lines[:5]` are drawn: the final word `l`
never appears in the caption, although the caption is indeed displayed
for the whole scene duration. -/
theorem static_caption_not_full_text_cex :
    "l" ∈ pyWords twelveWords
    ∧ (wrapWords measure300 (pyWords twelveWords) []).length = 6
    ∧ (createStaticText measure300 twelveWords 10).lines.length = 5
    ∧ "l" ∉ (createStaticText measure300 twelveWords 10).lines.flatten
    ∧ (createStaticText measure300 twelveWords 10).duration = 10 :=
  ⟨by decide, by decide, by decide, by decide, by decide⟩

/-- C7 amended: a scene built with no word-timing data uses the static
caption, shown for the entire scene duration (total caption display time
equals the scene duration); the caption block is the word-wrapped display
text truncated to the first five wrapped lines — the wrap itself loses no
words, the `lines[:5]` truncation is the only loss. -/
theorem static_caption_spec (measure : String → Nat) (text : String)
    (dur : ℚ) :
    sceneCaption measure [] text dur
      = .staticBlock (createStaticText measure text dur)
    ∧ (createStaticText measure text dur).duration = dur
    ∧ (createStaticText measure text dur).lines
        = (wrapWords measure (pyWords text) []).take 5
    ∧ (wrapWords measure (pyWords text) []).flatten = pyWords text := by
  refine ⟨rfl, rfl, rfl, ?_⟩
  rw [wrapWords_flatten]
  simp
